import Mathlib

/-!
# Verification of the `hbayes` Bayesian-optimization core against its specification

The repository ships only the documentation notebook
(`docs/source/best_practice/advanced-tour.ipynb`); the implementation of the
`hbayes` package itself (ObservationStore, AcquisitionFunction,
AcquisitionOptimizer, EventBus, OptimizationEngine) is not part of the source
tree.  Every component below is therefore modelled from the specification's
words (each such definition says so in its doc comment), and the claims are
settled against these spec-faithful models.

Real-valued quantities are embedded as rationals (exact arithmetic); random
number generation is embedded as an explicitly threaded deterministic
generator state, mirroring the seeded `random_state` of the engine.
-/

set_option autoImplicit false

namespace HBayes

/-- A parameter vector: the `d`-dimensional point being probed. -/
abbrev Params := List ℚ

/-- Modelled from the spec: `Bounds` is an ordered mapping from parameter
position to a closed interval `[lo, hi]`; the list order fixes the axis order
of all vector representations (§3). -/
abbrev Bounds := List (ℚ × ℚ)

/-- Modelled from the spec: every interval of the bounds satisfies `lo ≤ hi`
(§3, "a closed interval [lo, hi], lo ≤ hi"). -/
def validBounds (b : Bounds) : Prop := ∀ pr ∈ b, pr.1 ≤ pr.2

instance (b : Bounds) : Decidable (validBounds b) :=
  List.decidableBAll _ b

/-- The point has the dimensionality of the bounds and each coordinate lies
in its closed interval `[lo, hi]`. -/
def inBounds (b : Bounds) (p : Params) : Prop :=
  p.length = b.length ∧
    ∀ i, i < b.length →
      (b.getD i (0, 0)).1 ≤ p.getD i 0 ∧ p.getD i 0 ≤ (b.getD i (0, 0)).2

instance (b : Bounds) (p : Params) : Decidable (inBounds b p) := by
  unfold inBounds; infer_instance

/-- Clamp a scalar into the closed interval `[lo, hi]`. -/
def clamp (lo hi x : ℚ) : ℚ := max lo (min hi x)

/-- Modelled from the spec: clip a parameter vector into `Bounds`,
coordinate by coordinate ("values outside [lo,hi] are clamped, not
rejected", §4.1); the result always has the dimensionality of the bounds. -/
def clipFull (b : Bounds) (p : Params) : Params :=
  (List.range b.length).map
    (fun i => clamp (b.getD i (0, 0)).1 (b.getD i (0, 0)).2 (p.getD i 0))

lemma clamp_le_and_ge {lo hi : ℚ} (x : ℚ) (h : lo ≤ hi) :
    lo ≤ clamp lo hi x ∧ clamp lo hi x ≤ hi :=
  ⟨le_max_left _ _, max_le h (min_le_left _ _)⟩

@[simp] lemma clipFull_length (b : Bounds) (p : Params) :
    (clipFull b p).length = b.length := by
  simp [clipFull]

lemma clipFull_getD (b : Bounds) (p : Params) {i : ℕ} (hi : i < b.length) :
    (clipFull b p).getD i 0 =
      clamp (b.getD i (0, 0)).1 (b.getD i (0, 0)).2 (p.getD i 0) := by
  rw [List.getD_eq_getElem _ _ (by simpa [clipFull] using hi)]
  simp [clipFull]

lemma inBounds_clipFull (b : Bounds) (p : Params) (hb : validBounds b) :
    inBounds b (clipFull b p) := by
  refine ⟨clipFull_length b p, fun i hi => ?_⟩
  rw [clipFull_getD b p hi]
  have hmem : b.getD i (0, 0) ∈ b := by
    rw [List.getD_eq_getElem _ _ hi]
    exact List.getElem_mem hi
  exact clamp_le_and_ge _ (hb _ hmem)

/-! ## Deterministic random number generator

Modelled from the spec: the engine is constructed with a `random_state` seed
and all random draws are functions of the explicitly threaded generator
state, so runs are reproducible (§6 of the tour; engine construction takes
`random_state`). -/

/-- One step of the deterministic generator (a 64-bit linear congruential
step). -/
def rngNext (s : ℕ) : ℕ :=
  (6364136223846793005 * s + 1442695040888963407) % 2 ^ 64

/-- The generator state after `n` steps. -/
def rngIter (n s : ℕ) : ℕ := rngNext^[n] s

/-- A deterministic draw in `[0, 1]` extracted from a generator state. -/
def unit01 (s : ℕ) : ℚ := ((s % 2 ^ 20 : ℕ) : ℚ) / 2 ^ 20

lemma unit01_nonneg (s : ℕ) : 0 ≤ unit01 s := by
  unfold unit01; positivity

lemma unit01_le_one (s : ℕ) : unit01 s ≤ 1 := by
  unfold unit01
  rw [div_le_one (by norm_num)]
  exact_mod_cast (Nat.mod_lt _ (by norm_num)).le

/-- Modelled from the spec: `random_point` draws one point independently and
uniformly from Bounds, per-dimension (§4.1); each coordinate is
`lo + (hi - lo) * u` with `u ∈ [0,1]` taken from the generator, and the
advanced generator state is returned alongside. -/
def randomPoint (b : Bounds) (s : ℕ) : Params × ℕ :=
  ((List.range b.length).map
      (fun i =>
        (b.getD i (0, 0)).1 +
          ((b.getD i (0, 0)).2 - (b.getD i (0, 0)).1) * unit01 (rngIter (i + 1) s)),
   rngIter b.length s)

@[simp] lemma randomPoint_length (b : Bounds) (s : ℕ) :
    (randomPoint b s).1.length = b.length := by
  simp [randomPoint]

lemma randomPoint_getD (b : Bounds) (s : ℕ) {i : ℕ} (hi : i < b.length) :
    (randomPoint b s).1.getD i 0 =
      (b.getD i (0, 0)).1 +
        ((b.getD i (0, 0)).2 - (b.getD i (0, 0)).1) * unit01 (rngIter (i + 1) s) := by
  rw [List.getD_eq_getElem _ _ (by simpa [randomPoint] using hi)]
  simp [randomPoint]

lemma inBounds_randomPoint (b : Bounds) (s : ℕ) (hb : validBounds b) :
    inBounds b (randomPoint b s).1 := by
  refine ⟨randomPoint_length b s, fun i hi => ?_⟩
  rw [randomPoint_getD b s hi]
  have hmem : b.getD i (0, 0) ∈ b := by
    rw [List.getD_eq_getElem _ _ hi]
    exact List.getElem_mem hi
  have hlohi := hb _ hmem
  have h0 := unit01_nonneg (rngIter (i + 1) s)
  have h1 := unit01_le_one (rngIter (i + 1) s)
  constructor
  · nlinarith
  · nlinarith

/-! ## ObservationStore -/

/-- An observation: a clipped parameter vector together with its observed
target value. -/
abbrev Observation := Params × ℚ

/-- Modelled from the spec: the deduplicating, bounded-domain
`ObservationStore` (§4.1).  `entries` holds the observations in insertion
order (the arrays `as_arrays` returns); `cache` is the running-max cache
tracking the best observation over all successful registrations. -/
structure Store where
  bounds : Bounds
  entries : List Observation
  cache : Option Observation
  deriving DecidableEq

/-- A fresh store over the given bounds: no observations, empty running-max
cache. -/
def emptyStore (b : Bounds) : Store := ⟨b, [], none⟩

/-- Modelled from the spec: `contains(params)`, equality by exact value match
on the clipped vector, no tolerance (§4.1). -/
def Store.containsKey (st : Store) (q : Params) : Bool :=
  st.entries.any (fun e => decide (e.1 = q))

/-- The stored target for an exact-match key, if any. -/
def Store.lookupTarget (st : Store) (q : Params) : Option ℚ :=
  (st.entries.find? (fun e => decide (e.1 = q))).map (fun e => e.2)

/-- One update of the running-max cache by a newly registered observation:
the cache keeps whichever observation has the strictly higher target. -/
def cacheStep (b : Bounds) (c : Option Observation) (r : Params × ℚ) :
    Option Observation :=
  match c with
  | none => some (clipFull b r.1, r.2)
  | some m => if m.2 < r.2 then some (clipFull b r.1, r.2) else some m

/-- Modelled from the spec: `add(params, target)` (§4.1, §3).  The vector is
clipped into Bounds before storage; a vector exactly equal (after clipping)
to an already-stored key overwrites the previously stored target
(last-write-wins, §3) without growing the store, otherwise the observation
is appended; the running-max cache is updated in either case. -/
def addObs (st : Store) (p : Params) (t : ℚ) : Store :=
  let q := clipFull st.bounds p
  { bounds := st.bounds
    entries :=
      if st.containsKey q then
        st.entries.map (fun e => if e.1 = q then (q, t) else e)
      else
        st.entries ++ [(q, t)]
    cache := cacheStep st.bounds st.cache (p, t) }

/-- Modelled from the spec: `max()` returns the best observation so far, or
an explicit empty marker (`none`) if the store has zero entries (§4.1,
"valid and must not fail"). -/
def Store.max (st : Store) : Option Observation := st.cache

/-- The best-so-far target used by the acquisition functions; `0` only in
the degenerate empty-store state, where it is never consulted. -/
def Store.bestTarget (st : Store) : ℚ :=
  match st.cache with
  | none => 0
  | some m => m.2

/-- Modelled from the spec: a target value as received from a caller, which
may be non-finite (NaN/±Inf) — the conditions `register` must reject (§7,
*NonFiniteTarget*). -/
inductive FVal where
  | fin (q : ℚ)
  | nan
  | inf
  | neginf
  deriving DecidableEq

/-- Whether a caller-supplied target value is finite. -/
def FVal.isFinite : FVal → Bool
  | .fin _ => true
  | _ => false

/-- Modelled from the spec: the error taxonomy of §7 relevant to
`register`. -/
inductive RegError where
  | invalidDimension
  | nonFiniteTarget
  deriving DecidableEq

/-- Modelled from the spec: `register(params, value)` as callable by the
user (§4.5, §7): a vector of the wrong dimensionality is a fatal caller
error; a NaN/Inf target is rejected with a reportable error and the store
is left unmodified; otherwise the observation is added to the store. -/
def register (st : Store) (p : Params) (t : FVal) : Except RegError Store :=
  if p.length ≠ st.bounds.length then .error .invalidDimension
  else
    match t with
    | .fin q => .ok (addObs st p q)
    | _ => .error .nonFiniteTarget

@[simp] lemma addObs_bounds (st : Store) (p : Params) (t : ℚ) :
    (addObs st p t).bounds = st.bounds := rfl

@[simp] lemma addObs_cache (st : Store) (p : Params) (t : ℚ) :
    (addObs st p t).cache = cacheStep st.bounds st.cache (p, t) := rfl

/-! ## AcquisitionFunction -/

/-- Modelled from the spec: the three interchangeable scoring policies of
the acquisition function (§3, §4.2). -/
inductive AcqKind where
  | ucb
  | ei
  | poi
  deriving DecidableEq

/-- Modelled from the spec: `UtilityFunction` state — kind, `kappa`
(exploration weight for UCB) and `xi` (improvement margin for EI/POI)
(§3). -/
structure Utility where
  kind : AcqKind
  kappa : ℚ
  xi : ℚ
  deriving DecidableEq

/-- Modelled from the spec: the scoring policies of §4.2, scoring one
candidate from the surrogate's predictive `mean`/`std` and the best
observed target.  `Phi` and `phi` are the standard normal CDF/PDF, supplied
by the numerical environment and treated as opaque collaborators here.
UCB is `mean + kappa * std`; EI and POI guard `std == 0` by returning `0`
exactly, and otherwise use `z = (mean - best - xi) / std`. -/
def utilityScore (Phi phi : ℚ → ℚ) (u : Utility) (mean std best : ℚ) : ℚ :=
  match u.kind with
  | .ucb => mean + u.kappa * std
  | .ei =>
      if std = 0 then 0
      else
        let a := mean - best - u.xi
        a * Phi (a / std) + std * phi (a / std)
  | .poi =>
      if std = 0 then 0
      else Phi ((mean - best - u.xi) / std)

/-! ## AcquisitionOptimizer -/

/-- Draw `n` successive random points from bounds, threading the generator
state. -/
def drawN (b : Bounds) : ℕ → ℕ → List Params × ℕ
  | 0, s => ([], s)
  | n + 1, s =>
      let pr := randomPoint b s
      let rest := drawN b n pr.2
      (pr.1 :: rest.1, rest.2)

/-- Keep the argument with the strictly larger score (first wins ties). -/
def argmaxBy (f : Params → ℚ) : List Params → Option Params :=
  List.foldl
    (fun best p =>
      match best with
      | none => some p
      | some q => if f q < f p then some p else some q)
    none

/-- Modelled from the spec: the duplicate guard of §4.3 step 3.  If the
chosen point is exactly equal (post-clip) to an already-registered point,
it is replaced by a fresh uniform draw from Bounds; the substitution
repeats a bounded number of times (`fuel`) before falling back to an
unconstrained random draw, so the search always terminates. -/
def dupGuard (st : Store) (b : Bounds) : ℕ → Params → ℕ → Params × ℕ
  | 0, _, s =>
      ((List.range b.length).map (fun i => ((rngIter (i + 1) s % 2 ^ 20 : ℕ) : ℚ)),
       rngIter b.length s)
  | f + 1, p, s =>
      if st.containsKey p then
        let pr := randomPoint b s
        dupGuard st b f pr.1 pr.2
      else (p, s)

/-- Modelled from the spec: the `AcquisitionOptimizer` (§4.3).  Warm start:
`nWarmup` uniform random points, scored, best kept as incumbent.  Local
refinement: `nRestarts` local maximizations seeded from random points plus
the incumbent, each box-constrained to Bounds (the abstract local step
`localOpt` followed by clipping); all local optima plus the incumbent are
compared by score.  The duplicate guard then avoids re-suggesting a stored
point, and the final result is clipped into Bounds (step 4, defense against
round-off at the boundary). -/
def acqMax (score : Params → ℚ) (st : Store) (s : ℕ)
    (nWarmup nRestarts : ℕ) (localOpt : Params → Params) (fuel : ℕ) :
    Params × ℕ :=
  let b := st.bounds
  let warm := drawN b nWarmup s
  let incumbent :=
    match argmaxBy score warm.1 with
    | some p => (p, warm.2)
    | none => randomPoint b warm.2
  let seeds := drawN b nRestarts incumbent.2
  let cands :=
    incumbent.1 :: (incumbent.1 :: seeds.1).map (fun q => clipFull b (localOpt q))
  let best :=
    match argmaxBy score cands with
    | some p => p
    | none => incumbent.1
  let guarded := dupGuard st b fuel best seeds.2
  (clipFull b guarded.1, guarded.2)

lemma acqMax_inBounds (score : Params → ℚ) (st : Store) (s : ℕ)
    (nWarmup nRestarts : ℕ) (localOpt : Params → Params) (fuel : ℕ)
    (hb : validBounds st.bounds) :
    inBounds st.bounds (acqMax score st s nWarmup nRestarts localOpt fuel).1 := by
  unfold acqMax
  exact inBounds_clipFull _ _ hb

/-! ## OptimizationEngine: suggest -/

/-- A surrogate model collaborator: fitted on the store's observation
arrays, it maps a candidate point to a predictive `(mean, std)` pair (§6).
The fit is a pure function of the observation history (lazy refit on every
`suggest`). -/
abbrev Surrogate := List Observation → Params → ℚ × ℚ

/-- Modelled from the spec: `suggest(acquisition)` (§4.3).  With zero
observations the surrogate has no fit, so `suggest` short-circuits and
returns a uniform random draw from Bounds without invoking the surrogate or
the `AcquisitionOptimizer`; otherwise it refits the surrogate on the
current observation arrays and maximizes the acquisition over Bounds. -/
def suggest (predict : Surrogate) (Phi phi : ℚ → ℚ) (u : Utility)
    (localOpt : Params → Params) (nWarmup nRestarts fuel : ℕ)
    (st : Store) (s : ℕ) : Params × ℕ :=
  if st.entries.isEmpty then randomPoint st.bounds s
  else
    let score := fun x =>
      let ms := predict st.entries x
      utilityScore Phi phi u ms.1 ms.2 st.bestTarget
    acqMax score st s nWarmup nRestarts localOpt fuel

/-! ## EventBus -/

/-- Modelled from the spec: the fixed, closed enumeration of lifecycle
events (§4.4): START (loop begins), STEP (a successful registration
completed), SKIP (a probe failed and was discarded), END (loop
completes). -/
inductive EventKind where
  | START
  | STEP
  | SKIP
  | END
  deriving DecidableEq

/-- Modelled from the spec: a subscribed callback, abstracted by an
observable identity (recorded when the callback runs) and the exception it
raises, if any (§4.4). -/
structure Callback where
  id : ℕ
  err : Option ℕ
  deriving DecidableEq

/-- Modelled from the spec: the synchronous observer registry (§4.4); the
subscription list is kept in subscription order. -/
structure Bus where
  subs : List (EventKind × ℕ × Callback)
  deriving DecidableEq

/-- Modelled from the spec: `subscribe(event_kind, subscriber_token,
callback)` appends one registration (§4.4). -/
def Bus.subscribe (bus : Bus) (k : EventKind) (tok : ℕ) (cb : Callback) : Bus :=
  ⟨bus.subs ++ [(k, tok, cb)]⟩

/-- Run a list of callbacks in order: every callback runs (its identity is
appended to the invocation log) even when an earlier one raised; the first
raised exception, if any, is returned only after the whole list has run. -/
def fireRun : List Callback → List ℕ × Option ℕ
  | [] => ([], none)
  | cb :: rest =>
      let r := fireRun rest
      (cb.id :: r.1,
       match cb.err with
       | some e => some e
       | none => r.2)

/-- Modelled from the spec: `fire(event_kind, engine)` invokes all callbacks
registered for that event kind synchronously, in subscription order,
isolating per-callback failures and surfacing the first exception only
after all callbacks have run (§4.4).  Returns the invocation log and the
surfaced exception. -/
def fire (bus : Bus) (k : EventKind) : List ℕ × Option ℕ :=
  fireRun ((bus.subs.filter (fun sub => decide (sub.1 = k))).map
    (fun sub => sub.2.2))

/-! ## OptimizationEngine: probe and maximize -/

/-- The objective-function collaborator (§6): maps a parameter vector to a
numeric target or a failure signal (`none`, the `FuncFailed` exception of
the tour). -/
abbrev Objective := Params → Option ℚ

/-- Modelled from the spec: `probe(params)` (§4.5).  If the objective
signals failure the engine does not call `register`, fires SKIP, and leaves
the store exactly as before; otherwise it registers the observation and
fires STEP.  Returns the resulting store and the events fired. -/
def probe (obj : Objective) (st : Store) (p : Params) :
    Store × List EventKind :=
  match obj p with
  | none => (st, [.SKIP])
  | some v => (addObs st p v, [.STEP])

/-- One optimization phase: `n` iterations, each choosing a point with
`choose` and probing it.  Returns the final store, the final generator
state, the events fired, and the probed points in order. -/
def runPhase (choose : Store → ℕ → Params × ℕ) (obj : Objective) :
    ℕ → Store → ℕ → Store × ℕ × List EventKind × List Params
  | 0, st, s => (st, s, [], [])
  | n + 1, st, s =>
      let pr := choose st s
      let step := probe obj st pr.1
      let rest := runPhase choose obj n step.1 pr.2
      (rest.1, rest.2.1, step.2 ++ rest.2.2.1, pr.1 :: rest.2.2.2)

/-- Modelled from the spec: `maximize(init_points, n_iter, ...)` (§4.5):
fires START, runs the WARMUP phase (`k` pure random explorations,
delegating to `random_point` and bypassing the optimizer), then the REFINE
phase (`m` iterations through `suggest`), then fires END.  Returns the
final store, final generator state, the full event log, and the probed
points. -/
def maximize (predict : Surrogate) (Phi phi : ℚ → ℚ) (u : Utility)
    (localOpt : Params → Params) (nWarmup nRestarts fuel : ℕ)
    (obj : Objective) (st : Store) (s : ℕ) (k m : ℕ) :
    Store × ℕ × List EventKind × List Params :=
  let warm := runPhase (fun st1 s1 => randomPoint st1.bounds s1) obj k st s
  let refine :=
    runPhase (fun st1 s1 =>
        suggest predict Phi phi u localOpt nWarmup nRestarts fuel st1 s1)
      obj m warm.1 warm.2.1
  (refine.1, refine.2.1,
   .START :: (warm.2.2.1 ++ refine.2.2.1 ++ [.END]),
   warm.2.2.2 ++ refine.2.2.2)

/-! ## Claim theorems -/

/-- C1: for every engine whose ObservationStore holds zero observations,
`suggest` returns a point lying inside Bounds, drawn uniformly at random
(the `randomPoint` draw), and does not invoke the surrogate model or the
AcquisitionOptimizer: the result equals the plain random draw for every
surrogate, acquisition, and optimizer configuration. -/
theorem suggest_empty_store_is_uniform_draw (predict : Surrogate)
    (Phi phi : ℚ → ℚ) (u : Utility) (localOpt : Params → Params)
    (nWarmup nRestarts fuel : ℕ) (st : Store) (s : ℕ)
    (hempty : st.entries = []) (hb : validBounds st.bounds) :
    suggest predict Phi phi u localOpt nWarmup nRestarts fuel st s
      = randomPoint st.bounds s
    ∧ inBounds st.bounds
        (suggest predict Phi phi u localOpt nWarmup nRestarts fuel st s).1 := by
  have h :
      suggest predict Phi phi u localOpt nWarmup nRestarts fuel st s
        = randomPoint st.bounds s := by
    simp [suggest, hempty]
  exact ⟨h, h ▸ inBounds_randomPoint _ _ hb⟩

/-- Witness for C1 at a concrete empty engine over the tour's bounds. -/
theorem suggest_empty_store_is_uniform_draw_witness :
    suggest (fun _ _ => (0, 1)) id id ⟨.ucb, 5/2, 0⟩ id 7 3 5
        (emptyStore [(-2, 2), (-3, 3)]) 1
      = randomPoint (emptyStore [(-2, 2), (-3, 3)]).bounds 1
    ∧ inBounds (emptyStore [(-2, 2), (-3, 3)]).bounds
        (suggest (fun _ _ => (0, 1)) id id ⟨.ucb, 5/2, 0⟩ id 7 3 5
          (emptyStore [(-2, 2), (-3, 3)]) 1).1 :=
  suggest_empty_store_is_uniform_draw (fun _ _ => (0, 1)) id id ⟨.ucb, 5/2, 0⟩
    id 7 3 5 (emptyStore [(-2, 2), (-3, 3)]) 1 rfl (by decide)

/-- C2: at zero predicted standard deviation the EI and POI scores are
exactly 0 (no division singularity), and for `std > 0` EI equals
`(mean - best - xi) * Φ(z) + std * φ(z)` and POI equals `Φ(z)` with
`z = (mean - best - xi) / std`. -/
theorem ei_poi_zero_std_guard (Phi phi : ℚ → ℚ) (kap xi mean best : ℚ) :
    utilityScore Phi phi ⟨.ei, kap, xi⟩ mean 0 best = 0
    ∧ utilityScore Phi phi ⟨.poi, kap, xi⟩ mean 0 best = 0
    ∧ ∀ std : ℚ, 0 < std →
        utilityScore Phi phi ⟨.ei, kap, xi⟩ mean std best
          = (mean - best - xi) * Phi ((mean - best - xi) / std)
            + std * phi ((mean - best - xi) / std)
        ∧ utilityScore Phi phi ⟨.poi, kap, xi⟩ mean std best
          = Phi ((mean - best - xi) / std) := by
  refine ⟨by simp [utilityScore], by simp [utilityScore], fun std hstd => ?_⟩
  constructor <;> simp [utilityScore, ne_of_gt hstd]

/-- Witness for C2 at concrete CDF/PDF stand-ins and `std = 1`. -/
theorem ei_poi_zero_std_guard_witness :
    utilityScore id id ⟨.ei, 1, 0⟩ 3 0 1 = 0
    ∧ utilityScore id id ⟨.ei, 1, 0⟩ 3 1 1
        = (3 - 1 - 0) * id ((3 - 1 - 0) / 1) + 1 * id ((3 - 1 - 0) / 1) := by
  obtain ⟨h1, _h2, h3⟩ := ei_poi_zero_std_guard id id 1 0 3 1
  exact ⟨h1, (h3 1 one_pos).1⟩

/-- C6: `register` with a NaN or infinite target is rejected with a
reportable error and produces no store mutation at all — in particular no
non-finite value can reach the running-max cache. -/
theorem register_rejects_nonfinite_target (st : Store) (p : Params) (t : FVal)
    (hfin : t.isFinite = false) :
    (∃ e, register st p t = .error e)
    ∧ (∀ st' : Store, register st p t ≠ .ok st')
    ∧ (p.length = st.bounds.length → register st p t = .error .nonFiniteTarget) := by
  have herr : ∃ e, register st p t = .error e := by
    unfold register
    by_cases hlen : p.length ≠ st.bounds.length
    · exact ⟨.invalidDimension, by simp [hlen]⟩
    · cases t with
      | fin q => simp [FVal.isFinite] at hfin
      | nan => exact ⟨.nonFiniteTarget, by simp [hlen]⟩
      | inf => exact ⟨.nonFiniteTarget, by simp [hlen]⟩
      | neginf => exact ⟨.nonFiniteTarget, by simp [hlen]⟩
  obtain ⟨e, he⟩ := herr
  refine ⟨⟨e, he⟩, fun st' hok => by simp [he] at hok, fun hlen => ?_⟩
  unfold register
  cases t with
  | fin q => simp [FVal.isFinite] at hfin
  | nan => simp [hlen]
  | inf => simp [hlen]
  | neginf => simp [hlen]

/-- Witness for C6: registering a NaN target into a concrete store. -/
theorem register_rejects_nonfinite_target_witness :
    (∃ e, register (emptyStore [(0, 1)]) [0] .nan = .error e)
    ∧ (∀ st' : Store, register (emptyStore [(0, 1)]) [0] .nan ≠ .ok st')
    ∧ ([0].length = (emptyStore [(0, 1)]).bounds.length →
        register (emptyStore [(0, 1)]) [0] .nan = .error .nonFiniteTarget) :=
  register_rejects_nonfinite_target (emptyStore [(0, 1)]) [0] .nan rfl

/-- C7: for every `n_warmup ≥ 1` and `n_restarts ≥ 1` the point returned by
the AcquisitionOptimizer lies inside the current Bounds, each coordinate
within its closed interval, because the final result is clipped into
Bounds. -/
theorem acqMax_stays_within_bounds (score : Params → ℚ) (st : Store) (s : ℕ)
    (nWarmup nRestarts : ℕ) (localOpt : Params → Params) (fuel : ℕ)
    (hb : validBounds st.bounds) (_hW : 1 ≤ nWarmup) (_hR : 1 ≤ nRestarts) :
    inBounds st.bounds
      (acqMax score st s nWarmup nRestarts localOpt fuel).1 :=
  acqMax_inBounds score st s nWarmup nRestarts localOpt fuel hb

/-- Witness for C7 at a concrete store, score and local optimizer. -/
theorem acqMax_stays_within_bounds_witness :
    inBounds (emptyStore [(-2, 2), (-3, 3)]).bounds
      (acqMax (fun p => p.getD 0 0) (emptyStore [(-2, 2), (-3, 3)]) 1 2 2
        (fun p => p.map (fun x => x + 10)) 3).1 :=
  acqMax_stays_within_bounds (fun p => p.getD 0 0) (emptyStore [(-2, 2), (-3, 3)])
    1 2 2 (fun p => p.map (fun x => x + 10)) 3 (by decide) (by decide) (by decide)

lemma find_overwrite (l : List Observation) (q : Params) (t : ℚ)
    (h : l.any (fun e => decide (e.1 = q)) = true) :
    (l.map (fun e => if e.1 = q then (q, t) else e)).find?
      (fun e => decide (e.1 = q)) = some (q, t) := by
  induction l with
  | nil => simp at h
  | cons e rest ih =>
    by_cases he : e.1 = q
    · simp [he, List.find?]
    · have h' : rest.any (fun e => decide (e.1 = q)) = true := by
        simpa [he] using h
      simpa [List.find?, he] using ih h'

/-- C4: registering a parameter vector exactly equal (after clipping) to an
already-stored vector overwrites the previously stored target with the new
one (last-write-wins), and the store's size does not grow. -/
theorem duplicate_register_overwrites (st : Store) (p : Params) (t : ℚ)
    (hdup : st.containsKey (clipFull st.bounds p) = true) :
    (addObs st p t).entries.length = st.entries.length
    ∧ (addObs st p t).lookupTarget (clipFull st.bounds p) = some t := by
  constructor
  · simp [addObs, hdup]
  · unfold Store.lookupTarget
    have hentries :
        (addObs st p t).entries =
          st.entries.map
            (fun e => if e.1 = clipFull st.bounds p then (clipFull st.bounds p, t) else e) := by
      simp [addObs, hdup]
    rw [hentries, find_overwrite st.entries (clipFull st.bounds p) t hdup]
    rfl

/-- Witness for C4: overwriting a stored point in a concrete store. -/
theorem duplicate_register_overwrites_witness :
    (addObs ⟨[(0, 2)], [([1], 5)], some ([1], 5)⟩ [1] 3).entries.length
        = (⟨[(0, 2)], [([1], 5)], some ([1], 5)⟩ : Store).entries.length
    ∧ (addObs ⟨[(0, 2)], [([1], 5)], some ([1], 5)⟩ [1] 3).lookupTarget
        (clipFull [(0, 2)] [1]) = some 3 :=
  duplicate_register_overwrites ⟨[(0, 2)], [([1], 5)], some ([1], 5)⟩ [1] 3
    (by decide)

/-- C3: when the objective signals failure, `probe` does not register: it
fires exactly one SKIP event and leaves the ObservationStore (entries and
running-max cache) exactly as before; the surrounding loop continues with
the unchanged store rather than aborting. -/
theorem probe_failure_skip_preserves_store (obj : Objective) (st : Store)
    (p : Params) (hfail : obj p = none) :
    probe obj st p = (st, [.SKIP])
    ∧ (probe obj st p).1.entries = st.entries
    ∧ (probe obj st p).1.max = st.max
    ∧ ∀ (choose : Store → ℕ → Params × ℕ) (n s : ℕ), (choose st s).1 = p →
        runPhase choose obj (n + 1) st s
          = ((runPhase choose obj n st (choose st s).2).1,
             (runPhase choose obj n st (choose st s).2).2.1,
             .SKIP :: (runPhase choose obj n st (choose st s).2).2.2.1,
             p :: (runPhase choose obj n st (choose st s).2).2.2.2) := by
  have hp : probe obj st p = (st, [.SKIP]) := by simp [probe, hfail]
  refine ⟨hp, by rw [hp], by rw [hp], fun choose n s hchoose => ?_⟩
  show
    (let pr := choose st s
     let step := probe obj st pr.1
     let rest := runPhase choose obj n step.1 pr.2
     (rest.1, rest.2.1, step.2 ++ rest.2.2.1, pr.1 :: rest.2.2.2)) = _
  simp only [hchoose, hp]
  rfl

/-- Witness for C3: probing a concrete always-failing objective. -/
theorem probe_failure_skip_preserves_store_witness :
    probe (fun _ => none) (emptyStore [(0, 1)]) [0]
        = (emptyStore [(0, 1)], [.SKIP])
    ∧ (probe (fun _ => none) (emptyStore [(0, 1)]) [0]).1.entries
        = (emptyStore [(0, 1)]).entries
    ∧ (probe (fun _ => none) (emptyStore [(0, 1)]) [0]).1.max
        = (emptyStore [(0, 1)]).max
    ∧ ∀ (choose : Store → ℕ → Params × ℕ) (n s : ℕ),
        (choose (emptyStore [(0, 1)]) s).1 = [0] →
        runPhase choose (fun _ => none) (n + 1) (emptyStore [(0, 1)]) s
          = ((runPhase choose (fun _ => none) n (emptyStore [(0, 1)])
                (choose (emptyStore [(0, 1)]) s).2).1,
             (runPhase choose (fun _ => none) n (emptyStore [(0, 1)])
                (choose (emptyStore [(0, 1)]) s).2).2.1,
             .SKIP :: (runPhase choose (fun _ => none) n (emptyStore [(0, 1)])
                (choose (emptyStore [(0, 1)]) s).2).2.2.1,
             [0] :: (runPhase choose (fun _ => none) n (emptyStore [(0, 1)])
                (choose (emptyStore [(0, 1)]) s).2).2.2.2) :=
  probe_failure_skip_preserves_store (fun _ => none) (emptyStore [(0, 1)]) [0] rfl

lemma fireRun_log (l : List Callback) :
    (fireRun l).1 = l.map (fun cb => cb.id) := by
  induction l with
  | nil => rfl
  | cons cb rest ih => simp [fireRun, ih]

lemma fireRun_err (l : List Callback) :
    (fireRun l).2 = (l.filterMap (fun cb => cb.err)).head? := by
  induction l with
  | nil => rfl
  | cons cb rest ih =>
    cases hcb : cb.err with
    | none => simp [fireRun, hcb, ih]
    | some e => simp [fireRun, hcb]

/-- C9: `fire` invokes all callbacks registered for the event kind
synchronously in subscription order (the invocation log is exactly the
filtered subscription list, in order, regardless of raised exceptions), and
the surfaced exception is the first one raised, returned only after the
whole list has run. -/
theorem fire_runs_all_callbacks_in_order (bus : Bus) (k : EventKind) :
    (fire bus k).1
      = (bus.subs.filter (fun sub => decide (sub.1 = k))).map
          (fun sub => sub.2.2.id)
    ∧ (fire bus k).2
      = ((bus.subs.filter (fun sub => decide (sub.1 = k))).filterMap
          (fun sub => sub.2.2.err)).head? := by
  constructor
  · rw [fire, fireRun_log, List.map_map]
    rfl
  · rw [fire, fireRun_err, List.filterMap_map]
    rfl

/-- C10: the suggestion process is deterministic: two engines with the same
construction arguments (bounds, seed) and the same observation history
produce identical `suggest` results and identical `maximize` runs. -/
theorem suggestion_process_deterministic (predict : Surrogate)
    (Phi phi : ℚ → ℚ) (u : Utility) (localOpt : Params → Params)
    (nWarmup nRestarts fuel : ℕ) (obj : Objective)
    (st1 st2 : Store) (s1 s2 k m : ℕ)
    (hb : st1.bounds = st2.bounds) (he : st1.entries = st2.entries)
    (hc : st1.cache = st2.cache) (hs : s1 = s2) :
    suggest predict Phi phi u localOpt nWarmup nRestarts fuel st1 s1
      = suggest predict Phi phi u localOpt nWarmup nRestarts fuel st2 s2
    ∧ maximize predict Phi phi u localOpt nWarmup nRestarts fuel obj st1 s1 k m
      = maximize predict Phi phi u localOpt nWarmup nRestarts fuel obj st2 s2 k m := by
  obtain ⟨b1, e1, c1⟩ := st1
  obtain ⟨b2, e2, c2⟩ := st2
  cases hb
  cases he
  cases hc
  cases hs
  exact ⟨rfl, rfl⟩

/-- Witness for C10: two separately built engines with the tour's bounds
and seed coincide on a concrete run. -/
theorem suggestion_process_deterministic_witness :
    suggest (fun _ _ => (0, 1)) id id ⟨.ucb, 5/2, 0⟩ id 3 2 4
        (emptyStore [(-2, 2), (-3, 3)]) 1
      = suggest (fun _ _ => (0, 1)) id id ⟨.ucb, 5/2, 0⟩ id 3 2 4
        ⟨[(-2, 2), (-3, 3)], [], none⟩ 1
    ∧ maximize (fun _ _ => (0, 1)) id id ⟨.ucb, 5/2, 0⟩ id 3 2 4
        (fun p => some (p.getD 0 0)) (emptyStore [(-2, 2), (-3, 3)]) 1 1 2
      = maximize (fun _ _ => (0, 1)) id id ⟨.ucb, 5/2, 0⟩ id 3 2 4
        (fun p => some (p.getD 0 0)) ⟨[(-2, 2), (-3, 3)], [], none⟩ 1 1 2 :=
  suggestion_process_deterministic (fun _ _ => (0, 1)) id id ⟨.ucb, 5/2, 0⟩ id
    3 2 4 (fun p => some (p.getD 0 0)) (emptyStore [(-2, 2), (-3, 3)])
    ⟨[(-2, 2), (-3, 3)], [], none⟩ 1 1 1 2 rfl rfl rfl rfl

/-! ## Sequences of probes and registrations (for the store-max claim) -/

/-- The successful registrations extracted from a mixed sequence of probe
outcomes (a parameter vector paired with the objective's outcome). -/
def successes (steps : List (Params × Option ℚ)) : List (Params × ℚ) :=
  steps.filterMap (fun pr => pr.2.map (fun v => (pr.1, v)))

/-- Run a mixed sequence of successful and failed probes against a fresh
store. -/
def runProbes (b : Bounds) (steps : List (Params × Option ℚ)) : Store :=
  steps.foldl (fun st pr => (probe (fun _ => pr.2) st pr.1).1) (emptyStore b)

/-- Register a sequence of observations into a fresh store. -/
def registerAll (b : Bounds) (regs : List (Params × ℚ)) : Store :=
  regs.foldl (fun st r => addObs st r.1 r.2) (emptyStore b)

lemma foldProbes_eq_foldAdd (steps : List (Params × Option ℚ)) :
    ∀ st : Store,
      steps.foldl (fun st pr => (probe (fun _ => pr.2) st pr.1).1) st
        = (successes steps).foldl (fun st r => addObs st r.1 r.2) st := by
  induction steps with
  | nil => intro st; rfl
  | cons pr rest ih =>
    intro st
    cases h : pr.2 with
    | none => simpa [successes, probe, h] using ih st
    | some v => simpa [successes, probe, h] using ih (addObs st pr.1 v)

lemma foldAdd_bounds (regs : List (Params × ℚ)) :
    ∀ st : Store,
      (regs.foldl (fun st r => addObs st r.1 r.2) st).bounds = st.bounds := by
  induction regs with
  | nil => intro st; rfl
  | cons r rest ih => intro st; simp [ih]

lemma foldAdd_cache (regs : List (Params × ℚ)) :
    ∀ st : Store,
      (regs.foldl (fun st r => addObs st r.1 r.2) st).cache
        = regs.foldl (cacheStep st.bounds) st.cache := by
  induction regs with
  | nil => intro st; rfl
  | cons r rest ih =>
    intro st
    show (rest.foldl _ (addObs st r.1 r.2)).cache = _
    rw [ih (addObs st r.1 r.2)]
    rfl

lemma cacheStep_spec (b : Bounds) (c : Option Observation) (r : Params × ℚ) :
    ∃ q u, cacheStep b c r = some (q, u)
      ∧ r.2 ≤ u
      ∧ (∀ p0 t0, c = some (p0, t0) → t0 ≤ u)
      ∧ ((clipFull b r.1 = q ∧ r.2 = u) ∨ c = some (q, u)) := by
  cases c with
  | none =>
    exact ⟨clipFull b r.1, r.2, rfl, le_refl _, by simp, Or.inl ⟨rfl, rfl⟩⟩
  | some m =>
    obtain ⟨mp, mt⟩ := m
    by_cases hlt : mt < r.2
    · refine ⟨clipFull b r.1, r.2, by simp [cacheStep, hlt], le_refl _, ?_,
        Or.inl ⟨rfl, rfl⟩⟩
      intro p0 t0 h0
      obtain ⟨rfl, rfl⟩ := Prod.mk.injEq .. ▸ (Option.some.inj h0)
      exact hlt.le
    · refine ⟨mp, mt, by simp [cacheStep, hlt], not_lt.mp hlt, ?_, Or.inr rfl⟩
      intro p0 t0 h0
      obtain ⟨rfl, rfl⟩ := Prod.mk.injEq .. ▸ (Option.some.inj h0)
      exact le_refl _

lemma cacheFold_spec (b : Bounds) (regs : List (Params × ℚ)) :
    ∀ c : Option Observation,
      (regs.foldl (cacheStep b) c = none → regs = [] ∧ c = none)
      ∧ ∀ p t, regs.foldl (cacheStep b) c = some (p, t) →
          (∀ r ∈ regs, r.2 ≤ t)
          ∧ (∀ p0 t0, c = some (p0, t0) → t0 ≤ t)
          ∧ ((∃ r ∈ regs, clipFull b r.1 = p ∧ r.2 = t) ∨ c = some (p, t)) := by
  induction regs with
  | nil =>
    intro c
    refine ⟨fun h => ⟨rfl, h⟩, fun p t h => ⟨by simp, ?_, Or.inr h⟩⟩
    intro p0 t0 h0
    rw [h0] at h
    obtain ⟨rfl, rfl⟩ := Prod.mk.injEq .. ▸ (Option.some.inj h)
    exact le_refl _
  | cons r rs ih =>
    intro c
    obtain ⟨q, u, hc1, hru, hcle, hwit1⟩ := cacheStep_spec b c r
    have hfold :
        (r :: rs).foldl (cacheStep b) c = rs.foldl (cacheStep b) (cacheStep b c r) := rfl
    constructor
    · intro h
      rw [hfold] at h
      obtain ⟨-, hc1none⟩ := (ih (cacheStep b c r)).1 h
      rw [hc1] at hc1none
      exact absurd hc1none (by simp)
    · intro p t h
      rw [hfold] at h
      obtain ⟨hall, hle, hwit⟩ := (ih (cacheStep b c r)).2 p t h
      have hut : u ≤ t := hle q u hc1
      refine ⟨?_, ?_, ?_⟩
      · intro r' hr'
        rcases List.mem_cons.mp hr' with h1 | h1
        · rw [h1]; exact le_trans hru hut
        · exact hall r' h1
      · intro p0 t0 h0
        exact le_trans (hcle p0 t0 h0) hut
      · rcases hwit with ⟨r', hr', hcl, hrt⟩ | hc1pt
        · exact Or.inl ⟨r', List.mem_cons_of_mem _ hr', hcl, hrt⟩
        · rw [hc1] at hc1pt
          obtain ⟨rfl, rfl⟩ := Prod.mk.injEq .. ▸ (Option.some.inj hc1pt)
          rcases hwit1 with ⟨hclip, hrr⟩ | hcq
          · exact Or.inl ⟨r, List.mem_cons_self _ _, hclip, hrr⟩
          · exact Or.inr hcq

/-- C5: after any sequence of successful and failed probes the store equals
the one obtained from the successful registrations alone (SKIPs have no
effect), `max()` is the empty marker exactly when there was no successful
registration, and otherwise `max()` is an observation produced by some
successful registration whose target is highest among all of them. -/
theorem store_max_tracks_best_success (b : Bounds)
    (steps : List (Params × Option ℚ)) :
    runProbes b steps = registerAll b (successes steps)
    ∧ ((runProbes b steps).max = none ↔ successes steps = [])
    ∧ ∀ p t, (runProbes b steps).max = some (p, t) →
        (∃ r ∈ successes steps, clipFull b r.1 = p ∧ r.2 = t)
        ∧ ∀ r ∈ successes steps, r.2 ≤ t := by
  have h1 : runProbes b steps = registerAll b (successes steps) :=
    foldProbes_eq_foldAdd steps (emptyStore b)
  have hmax :
      (runProbes b steps).max
        = (successes steps).foldl (cacheStep b) none := by
    rw [h1]
    show (registerAll b (successes steps)).cache = _
    rw [registerAll, foldAdd_cache]
    rfl
  obtain ⟨hnone, hsome⟩ := cacheFold_spec b (successes steps) none
  refine ⟨h1, ⟨fun h => (hnone (hmax ▸ h)).1, fun h => ?_⟩, fun p t h => ?_⟩
  · rw [hmax, h]
    rfl
  · obtain ⟨hall, -, hwit⟩ := hsome p t (hmax ▸ h)
    rcases hwit with hw | hcontra
    · exact ⟨hw, hall⟩
    · exact absurd hcontra (by simp)

/-- Witness for C5: a concrete mixed success/failure probe sequence where
the duplicate point is overwritten but the running max keeps the best
success. -/
theorem store_max_tracks_best_success_witness :
    runProbes [(0, 10)] [([0], some 5), ([3], none), ([0], some 2)]
      = registerAll [(0, 10)]
          (successes [([0], some 5), ([3], none), ([0], some 2)])
    ∧ (∃ r ∈ successes [([0], some 5), ([3], none), ([0], some 2)],
          clipFull [(0, 10)] r.1 = [0] ∧ r.2 = 5)
    ∧ ∀ r ∈ successes [([0], some 5), ([3], none), ([0], some 2)], r.2 ≤ 5 := by
  obtain ⟨h1, -, h3⟩ :=
    store_max_tracks_best_success [(0, 10)] [([0], some 5), ([3], none), ([0], some 2)]
  obtain ⟨hw, hall⟩ := h3 [0] 5 (by decide)
  exact ⟨h1, hw, hall⟩

lemma runPhase_spec (choose : Store → ℕ → Params × ℕ) (obj : Objective) :
    ∀ (n : ℕ) (st : Store) (s : ℕ),
      (runPhase choose obj n st s).2.2.2.length = n
      ∧ (runPhase choose obj n st s).2.2.1.count .STEP
          = ((runPhase choose obj n st s).2.2.2.filter
              (fun p => (obj p).isSome)).length
      ∧ (runPhase choose obj n st s).2.2.1.count .SKIP
          = ((runPhase choose obj n st s).2.2.2.filter
              (fun p => (obj p).isNone)).length
      ∧ (runPhase choose obj n st s).2.2.1.count .START = 0
      ∧ (runPhase choose obj n st s).2.2.1.count .END = 0
      ∧ (runPhase choose obj n st s).2.2.1.count .STEP
          + (runPhase choose obj n st s).2.2.1.count .SKIP = n := by
  intro n
  induction n with
  | zero => intro st s; simp [runPhase]
  | succ n ih =>
    intro st s
    obtain ⟨hlen, hstep, hskip, hstart, hend, hsum⟩ :=
      ih (probe obj st (choose st s).1).1 (choose st s).2
    cases hobj : obj (choose st s).1 with
    | none =>
      have hpr : probe obj st (choose st s).1 = (st, [.SKIP]) := by
        simp [probe, hobj]
      refine ⟨?_, ?_, ?_, ?_, ?_, ?_⟩ <;>
        simp_all [runPhase, hpr, List.count_append, List.count_cons,
          List.filter_cons, hobj] <;> omega
    | some v =>
      have hpr :
          probe obj st (choose st s).1
            = (addObs st (choose st s).1 v, [.STEP]) := by
        simp [probe, hobj]
      refine ⟨?_, ?_, ?_, ?_, ?_, ?_⟩ <;>
        simp_all [runPhase, hpr, List.count_append, List.count_cons,
          List.filter_cons, hobj] <;> omega

/-- C8: `maximize(init_points = k, n_iter = m)` fires exactly one START,
exactly one END, and exactly `k + m` STEP and SKIP events combined, with
the STEP count equal to the number of successful evaluations and the SKIP
count equal to the number of failed evaluations among the probed points. -/
theorem maximize_event_counts (predict : Surrogate) (Phi phi : ℚ → ℚ)
    (u : Utility) (localOpt : Params → Params) (nWarmup nRestarts fuel : ℕ)
    (obj : Objective) (st : Store) (s k m : ℕ) :
    ((maximize predict Phi phi u localOpt nWarmup nRestarts fuel
        obj st s k m).2.2.1).count .START = 1
    ∧ ((maximize predict Phi phi u localOpt nWarmup nRestarts fuel
        obj st s k m).2.2.1).count .END = 1
    ∧ (maximize predict Phi phi u localOpt nWarmup nRestarts fuel
        obj st s k m).2.2.2.length = k + m
    ∧ ((maximize predict Phi phi u localOpt nWarmup nRestarts fuel
        obj st s k m).2.2.1).count .STEP
        = ((maximize predict Phi phi u localOpt nWarmup nRestarts fuel
            obj st s k m).2.2.2.filter (fun p => (obj p).isSome)).length
    ∧ ((maximize predict Phi phi u localOpt nWarmup nRestarts fuel
        obj st s k m).2.2.1).count .SKIP
        = ((maximize predict Phi phi u localOpt nWarmup nRestarts fuel
            obj st s k m).2.2.2.filter (fun p => (obj p).isNone)).length
    ∧ ((maximize predict Phi phi u localOpt nWarmup nRestarts fuel
        obj st s k m).2.2.1).count .STEP
        + ((maximize predict Phi phi u localOpt nWarmup nRestarts fuel
            obj st s k m).2.2.1).count .SKIP = k + m := by
  obtain ⟨hwlen, hwstep, hwskip, hwstart, hwend, hwsum⟩ :=
    runPhase_spec (fun st1 s1 => randomPoint st1.bounds s1) obj k st s
  obtain ⟨hrlen, hrstep, hrskip, hrstart, hrend, hrsum⟩ :=
    runPhase_spec
      (fun st1 s1 =>
        suggest predict Phi phi u localOpt nWarmup nRestarts fuel st1 s1)
      obj m
      (runPhase (fun st1 s1 => randomPoint st1.bounds s1) obj k st s).1
      (runPhase (fun st1 s1 => randomPoint st1.bounds s1) obj k st s).2.1
  refine ⟨?_, ?_, ?_, ?_, ?_, ?_⟩ <;>
    simp [maximize, List.count_append, List.count_cons, List.filter_append,
      hwlen, hwstep, hwskip, hwstart, hwend, hwsum, hrlen, hrstep, hrskip,
      hrstart, hrend, hrsum] <;>
    omega

end HBayes
